import Mathlib

/- Verification of the matangi IR/JIT pipeline.

The repository builds LLVM IR with llvmlite: a constant function
(generate_ir.py / jit_compile.py), a do-while summation function
(optimize_ir.py) and a linear-regression function over i32 arrays with
float32 outputs (linear_regression_ir.py), then parses, verifies,
optimizes and JIT-executes the modules.  Here the built IR functions are
embedded shallowly: i32 values are unbounded integers reduced by a
two's-complement wrap, both loops are instances of one post-test loop
runner mirroring the emitted basic-block topology, and the float32
arithmetic of the regression epilogue is modelled exactly as
round-to-nearest-even binary32 over the rationals. -/

/-- Two's-complement wrap of an unbounded integer into the signed 32-bit
range, i.e. the value semantics of llvmlite i32 add/mul results
(2147483648 = 2^31, 4294967296 = 2^32). -/
def wrap32 (z : Int) : Int :=
  (z + 2147483648) % 4294967296 - 2147483648

/-- The post-test loop topology shared by complex_function
(src/optimize_ir.py) and linear_regression (src/linear_regression_ir.py):
the entry block falls into the loop body unconditionally, the body runs
once on the current index, the index is incremented with i32 wrap, and a
conditional branch re-enters the body while the incremented index is
signed-less-than n.  The Nat argument is fuel bounding the recursion
depth; a `some` result carries the final state and the number of times
the body executed. -/
def doWhile {σ : Type} (body : Int → σ → σ) : Nat → Int → σ → Int → Option (σ × Nat)
  | 0, _, _, _ => none
  | fuel+1, i, s, n =>
    if wrap32 (i + 1) < n then
      match doWhile body fuel (wrap32 (i + 1)) (body i s) n with
      | none => none
      | some r => some (r.1, r.2 + 1)
    else
      some (body i s, 1)

/-- Loop body of complex_function: add the current index to the
accumulator (i32 add, wrapping). -/
def cfBody (i sum : Int) : Int := wrap32 (sum + i)

/-- Full run of complex_function's loop from i = 0, sum = 0.  The fuel
n.toNat + 1 dominates the loop's iteration count (established by
doWhile_total below), so the fuel is never the reason a run stops. -/
def cfRunFull (n : Int) : Option (Int × Nat) :=
  doWhile cfBody (n.toNat + 1) 0 0 n

/-- complex_function from src/optimize_ir.py: after the loop exits, the
accumulator is loaded and returned. -/
def complex_function (n : Int) : Option Int :=
  (cfRunFull n).map (fun r => r.1)

/-- Number of times the loop body of complex_function executes. -/
def cfIterations (n : Int) : Nat :=
  ((cfRunFull n).map (fun r => r.2)).getD 0

example : complex_function 5 = some 10 := by decide
example : cfIterations 5 = 5 := by decide
example : complex_function 0 = some 0 := by decide
example : complex_function (-3) = some 0 := by decide

/-- Values already in signed 32-bit range are fixed by the wrap. -/
theorem wrap32_eq_self (z : Int) (h1 : -2147483648 ≤ z) (h2 : z ≤ 2147483647) :
    wrap32 z = z := by
  unfold wrap32
  omega

/-- Every successful doWhile run executed the body at least once: the
first body execution happens before the first conditional branch. -/
theorem doWhile_pos {σ : Type} (body : Int → σ → σ) :
    ∀ (fuel : Nat) (i : Int) (s : σ) (n : Int) (s2 : σ) (k : Nat),
      doWhile body fuel i s n = some (s2, k) → 1 ≤ k := by
  intro fuel
  induction fuel with
  | zero =>
    intro i s n s2 k h
    simp [doWhile] at h
  | succ f ih =>
    intro i s n s2 k h
    simp only [doWhile] at h
    by_cases hlt : wrap32 (i + 1) < n
    · rw [if_pos hlt] at h
      cases hd : doWhile body f (wrap32 (i + 1)) (body i s) n with
      | none => rw [hd] at h; simp at h
      | some r =>
        rw [hd] at h
        simp at h
        omega
    · rw [if_neg hlt] at h
      simp at h
      omega

/-- Fuel sufficiency: starting from a nonnegative index below the i32
maximum, with n a valid signed 32-bit value, the loop finishes within
(n - i).toNat + 1 steps, so any larger fuel yields a result. -/
theorem doWhile_total {σ : Type} (body : Int → σ → σ) :
    ∀ (fuel : Nat) (i : Int) (s : σ) (n : Int),
      0 ≤ i → i ≤ 2147483646 → n ≤ 2147483647 → (n - i).toNat < fuel →
      (doWhile body fuel i s n).isSome = true := by
  intro fuel
  induction fuel with
  | zero =>
    intro i s n h0 h1 h2 h3
    omega
  | succ f ih =>
    intro i s n h0 h1 h2 h3
    simp only [doWhile]
    by_cases hlt : wrap32 (i + 1) < n
    · rw [if_pos hlt]
      have hw : wrap32 (i + 1) = i + 1 := wrap32_eq_self _ (by omega) (by omega)
      rw [hw] at hlt
      have hrec := ih (i + 1) (body i s) n (by omega) (by omega) h2 (by omega)
      rw [hw]
      cases hd : doWhile body f (i + 1) (body i s) n with
      | none => rw [hd] at hrec; simp at hrec
      | some r => simp
    · rw [if_neg hlt]
      simp

/-- Terminators of the basic blocks the repository's builders emit:
unconditional branch, conditional branch, return of an i32 constant,
return of a loaded i32 value, and void return. -/
inductive Terminator
  | br (target : String)
  | condbr (ifTrue ifFalse : String)
  | retConst (v : Int)
  | retVal
  | retVoid
  deriving DecidableEq

/-- A basic block: a label plus the single terminator ending it (the
non-terminator instructions of the repository's blocks are captured by
the loop-runner semantics above; for control-flow-graph shape only the
label and the terminator matter). -/
structure BBlock where
  bname : String
  term : Terminator
  deriving DecidableEq

/-- A function of the module model: name, number of parameters, and its
ordered basic blocks (the first block is the entry block). -/
structure IRFunc where
  fname : String
  nparams : Nat
  blocks : List BBlock
  deriving DecidableEq

/-- A module: name, global-variable names, functions. -/
structure IRModule where
  mname : String
  globals : List String
  funcs : List IRFunc
  deriving DecidableEq

/-- example_function as built in src/generate_ir.py and src/jit_compile.py:
one entry block returning the i32 constant 42. -/
def exampleFunc : IRFunc :=
  ⟨"example_function", 0, [⟨"entry", Terminator.retConst 42⟩]⟩

/-- The example_module of src/generate_ir.py and src/jit_compile.py. -/
def exampleModule : IRModule :=
  ⟨"example_module", [], [exampleFunc]⟩

/-- complex_function's block structure as built in src/optimize_ir.py:
entry branches unconditionally into loop; loop ends with a conditional
branch back to loop or on to after_loop; after_loop returns the loaded
accumulator. -/
def complexFunc : IRFunc :=
  ⟨"complex_function", 1,
    [⟨"entry", Terminator.br ("loop")⟩,
     ⟨"loop", Terminator.condbr ("loop") ("after_loop")⟩,
     ⟨"after_loop", Terminator.retVal⟩]⟩

/-- The complex_module of src/optimize_ir.py. -/
def complexModule : IRModule :=
  ⟨"complex_module", [], [complexFunc]⟩

/-- linear_regression's block structure as built in
src/linear_regression_ir.py: the same entry/loop/after_loop topology,
with after_loop storing the coefficients to globals and returning void. -/
def lrFunc : IRFunc :=
  ⟨"linear_regression", 3,
    [⟨"entry", Terminator.br ("loop")⟩,
     ⟨"loop", Terminator.condbr ("loop") ("after_loop")⟩,
     ⟨"after_loop", Terminator.retVoid⟩]⟩

/-- The linear_regression_module of src/linear_regression_ir.py, with its
two float globals m_value and b_value. -/
def lrModule : IRModule :=
  ⟨"linear_regression_module", ["m_value", "b_value"], [lrFunc]⟩

/-- Branch targets of a terminator. -/
def termTargets : Terminator → List String
  | Terminator.br t => [t]
  | Terminator.condbr a b => [a, b]
  | _ => []

/-- Structural verification in the spirit of llvm verify on these
modules: every function has an entry block and every branch target
resolves to a block of the same function (every block carries exactly one
terminator by construction of the model). -/
def verifyFunc (f : IRFunc) : Bool :=
  !f.blocks.isEmpty &&
    f.blocks.all (fun b =>
      (termTargets b.term).all (fun t => (f.blocks.map (fun c => c.bname)).contains t))

/-- A module verifies when all its functions do. -/
def verifyM (m : IRModule) : Bool :=
  m.funcs.all verifyFunc

/-- Evaluation of a function whose entry block immediately returns an i32
constant (the shape of example_function): the returned value is the
constant reduced to i32 range. -/
def evalRetFunc (f : IRFunc) : Option Int :=
  match f.blocks with
  | [] => none
  | b :: _ =>
    match b.term with
    | Terminator.retConst v => some (wrap32 v)
    | _ => none

example : verifyM exampleModule = true := by decide
example : verifyM complexModule = true := by decide
example : verifyM lrModule = true := by decide
example : evalRetFunc exampleFunc = some 42 := by decide

/-- Raw-memory read of an i32 array: in-range indices read the element,
any other index is an unchecked out-of-bounds access whose result the
machine does not define (modelled by the junk value 0; claim C10 is the
statement delimiting when such indices occur). -/
def getMem (a : List Int) (i : Int) : Int :=
  if 0 ≤ i then a.getD i.toNat 0 else 0

/-- Mutable state of linear_regression's loop: the four running sums held
in stack slots, plus the trace of indices at which the body dereferenced
x and y (each iteration dereferences both arrays at the current index). -/
structure LRState where
  sum_x : Int
  sum_y : Int
  sum_xx : Int
  sum_xy : Int
  accessed : List Int
  deriving DecidableEq

/-- Loop body of linear_regression: load x[i] and y[i] through unchecked
element-address computation, then update the four sums with i32 wrapping
add/mul exactly as emitted in src/linear_regression_ir.py. -/
def lrBody (x y : List Int) (i : Int) (s : LRState) : LRState :=
  ⟨wrap32 (s.sum_x + getMem x i),
   wrap32 (s.sum_y + getMem y i),
   wrap32 (s.sum_xx + wrap32 (getMem x i * getMem x i)),
   wrap32 (s.sum_xy + wrap32 (getMem x i * getMem y i)),
   s.accessed ++ [i]⟩

/-- The sums and the access trace all start empty. -/
def initLR : LRState := ⟨0, 0, 0, 0, []⟩

/-- Full run of linear_regression's loop from i = 0; fuel as for
cfRunFull. -/
def lrRunFull (x y : List Int) (n : Int) : Option (LRState × Nat) :=
  doWhile (lrBody x y) (n.toNat + 1) 0 initLR n

/-- Number of times the loop body of linear_regression executes. -/
def lrIterations (x y : List Int) (n : Int) : Nat :=
  ((lrRunFull x y n).map (fun r => r.2)).getD 0

example : lrRunFull [1, 2, 3, 4, 5] [2, 4, 6, 8, 10] 5 =
    some (⟨15, 30, 55, 110, [0, 1, 2, 3, 4]⟩, 5) := by decide
example : lrRunFull [] [] 0 = some (⟨0, 0, 0, 0, [0]⟩, 1) := by decide

/-- Floor of a rational as an integer (num and den are already reduced,
den positive, so flooring is floor division of num by den). -/
def myFloor (q : Rat) : Int := q.num.fdiv (q.den : Int)

/-- Round a rational to the nearest integer, ties to even (the IEEE-754
default rounding direction). -/
def rhe (q : Rat) : Int :=
  if q - ((myFloor q : Int) : Rat) < (1 : Rat) / 2 then myFloor q
  else if (1 : Rat) / 2 < q - ((myFloor q : Int) : Rat) then myFloor q + 1
  else if myFloor q % 2 = 0 then myFloor q else myFloor q + 1

/-- Two to an integer power, as a rational. -/
def qpow2 (e : Int) : Rat :=
  if 0 ≤ e then ((2 ^ e.toNat : Nat) : Rat)
  else (1 : Rat) / ((2 ^ (-e).toNat : Nat) : Rat)

/-- Floor of the base-2 logarithm of a positive rational. -/
def qfloorLog2 (q : Rat) : Int :=
  if 1 ≤ q then ((Nat.log2 (myFloor q).toNat : Nat) : Int)
  else
    if q * qpow2 ((Nat.log2 (myFloor ((1 : Rat) / q)).toNat : Nat) : Int) = 1 then
      -((Nat.log2 (myFloor ((1 : Rat) / q)).toNat : Nat) : Int)
    else
      -((Nat.log2 (myFloor ((1 : Rat) / q)).toNat : Nat) : Int) - 1

/-- Round a rational to the nearest IEEE-754 binary32 value
(round-to-nearest, ties-to-even), including gradual underflow to
subnormals below 2^-126.  The model covers the finite floats, which is
all the repository's regression ever produces; a magnitude that IEEE
rounding would carry to infinity (at or above 2^128 - 2^103) is mapped to
the out-of-range sentinel ±2^128. -/
def roundB32 (q : Rat) : Rat :=
  if q = 0 then 0
  else
    if ((2 ^ 128 : Nat) : Rat) - ((2 ^ 103 : Nat) : Rat) ≤ (if q < 0 then -q else q) then
      (if q < 0 then -1 else 1) * ((2 ^ 128 : Nat) : Rat)
    else
      (if q < 0 then (-1 : Rat) else 1) *
        ((rhe ((if q < 0 then -q else q) *
            qpow2 (23 - max (qfloorLog2 (if q < 0 then -q else q)) (-126))) : Int) : Rat) *
        qpow2 (max (qfloorLog2 (if q < 0 then -q else q)) (-126) - 23)

/-- llvmlite sitofp to FloatType: signed i32 to binary32. -/
def sitofp32 (z : Int) : Rat := roundB32 ((z : Int) : Rat)

/-- binary32 multiplication: exact product, then one rounding. -/
def fmul32 (a b : Rat) : Rat := roundB32 (a * b)

/-- binary32 subtraction: exact difference, then one rounding. -/
def fsub32 (a b : Rat) : Rat := roundB32 (a - b)

/-- binary32 division: exact quotient, then one rounding.  Division by
zero yields infinity or NaN in IEEE; both are outside the finite model
and mapped to the sentinel (never reached by the claims). -/
def fdiv32 (a b : Rat) : Rat :=
  if b = 0 then (if a = 0 then 0 else ((2 ^ 128 : Nat) : Rat))
  else roundB32 (a / b)

/-- The floor model agrees with integer casts. -/
theorem myFloor_intCast (z : Int) : myFloor ((z : Int) : Rat) = z := by
  unfold myFloor
  rw [Rat.intCast_num, Rat.intCast_den]
  exact Int.fdiv_one z

/-- Round-to-nearest fixes integer-valued rationals. -/
theorem rhe_intCast (z : Int) : rhe ((z : Int) : Rat) = z := by
  unfold rhe
  rw [myFloor_intCast, sub_self]
  rw [if_pos (by norm_num : (0 : Rat) < 1 / 2)]

/-- qpow2 at a nonnegative exponent. -/
theorem qpow2_natCast (k : Nat) : qpow2 ((k : Nat) : Int) = ((2 ^ k : Nat) : Rat) := by
  unfold qpow2
  rw [if_pos (Int.natCast_nonneg k), Int.toNat_natCast]

/-- qpow2 at a negated natural exponent. -/
theorem qpow2_neg_natCast (k : Nat) :
    qpow2 (-((k : Nat) : Int)) = 1 / ((2 ^ k : Nat) : Rat) := by
  rcases Nat.eq_zero_or_pos k with hk | hk
  · subst hk
    unfold qpow2
    norm_num
  · unfold qpow2
    rw [if_neg (by omega : ¬(0 : Int) ≤ -((k : Nat) : Int))]
    rw [neg_neg, Int.toNat_natCast]

/-- Rounding the rational zero gives zero. -/
theorem roundB32_zero : roundB32 0 = 0 := by
  unfold roundB32
  simp

/-- binary32 rounding is the identity on integers of magnitude below 2^24:
such values are exactly representable (24-bit significand), so one IEEE
rounding returns them unchanged.  All intermediate values of the
repository's regression on the example data are of this form. -/
theorem roundB32_intCast (z : Int) (hz1 : 1 ≤ z) (hz2 : z ≤ 16777215) :
    roundB32 ((z : Int) : Rat) = ((z : Int) : Rat) := by
  have hq0 : ((z : Int) : Rat) ≠ 0 := by
    rw [Int.cast_ne_zero]
    omega
  have hneg : ¬(((z : Int) : Rat) < 0) := by
    rw [not_lt]
    exact_mod_cast (by omega : (0 : Int) ≤ z)
  have h1c : (1 : Rat) ≤ ((z : Int) : Rat) := by exact_mod_cast hz1
  have hzc : ((z : Int) : Rat) ≤ 16777215 := by exact_mod_cast hz2
  have hov : ¬(((2 ^ 128 : Nat) : Rat) - ((2 ^ 103 : Nat) : Rat) ≤ ((z : Int) : Rat)) := by
    rw [not_le]
    calc ((z : Int) : Rat) ≤ 16777215 := hzc
    _ < ((2 ^ 128 : Nat) : Rat) - ((2 ^ 103 : Nat) : Rat) := by push_cast; norm_num
  unfold roundB32
  rw [if_neg hq0]
  simp only [if_neg hneg]
  rw [if_neg hov]
  have hlog : qfloorLog2 ((z : Int) : Rat) = ((Nat.log2 z.toNat : Nat) : Int) := by
    unfold qfloorLog2
    rw [if_pos h1c, myFloor_intCast]
  rw [hlog]
  have hL : Nat.log2 z.toNat ≤ 23 := by
    have hz24 : z.toNat < 2 ^ 24 := by omega
    have := (Nat.log2_lt (by omega : z.toNat ≠ 0)).mpr hz24
    omega
  have hmax : max ((Nat.log2 z.toNat : Nat) : Int) (-126) = ((Nat.log2 z.toNat : Nat) : Int) :=
    max_eq_left (by omega)
  rw [hmax]
  rw [(by omega : (23 : Int) - ((Nat.log2 z.toNat : Nat) : Int) =
    ((23 - Nat.log2 z.toNat : Nat) : Int))]
  rw [qpow2_natCast]
  rw [(by omega : ((Nat.log2 z.toNat : Nat) : Int) - 23 =
    -((23 - Nat.log2 z.toNat : Nat) : Int))]
  rw [qpow2_neg_natCast]
  have hPe : ((z : Int) : Rat) * ((2 ^ (23 - Nat.log2 z.toNat) : Nat) : Rat)
      = (((z * ((2 ^ (23 - Nat.log2 z.toNat) : Nat) : Int)) : Int) : Rat) := by
    push_cast
    ring
  rw [hPe, rhe_intCast]
  have h2ne : ((2 : Rat)) ^ (23 - Nat.log2 z.toNat) ≠ 0 := pow_ne_zero _ (by norm_num)
  push_cast
  field_simp

/-- Coefficient epilogue of linear_regression (after_loop block of
src/linear_regression_ir.py): convert the four sums and n to binary32
with sitofp, then m = (n*sum_xy - sum_x*sum_y) / (n*sum_xx - sum_x*sum_x)
and b = (sum_y - m*sum_x) / n in binary32 arithmetic.  The returned pair
is the values stored into the float globals m_value and b_value, read
back by the host after the invocation returns. -/
def lrCoeffs (s : LRState) (n : Int) : Rat × Rat :=
  let nv := sitofp32 n
  let sx := sitofp32 s.sum_x
  let sy := sitofp32 s.sum_y
  let sxx := sitofp32 s.sum_xx
  let sxy := sitofp32 s.sum_xy
  let m := fdiv32 (fsub32 (fmul32 nv sxy) (fmul32 sx sy))
                  (fsub32 (fmul32 nv sxx) (fmul32 sx sx))
  let b := fdiv32 (fsub32 sy (fmul32 m sx)) nv
  (m, b)

/-- linear_regression from src/linear_regression_ir.py: run the
accumulation loop, then compute the two coefficients. -/
def linear_regression (x y : List Int) (n : Int) : Option (Rat × Rat) :=
  (lrRunFull x y n).map (fun r => lrCoeffs r.1 n)

/-- C3: invoking linear_regression with x = [1,2,3,4,5],
y = [2,4,6,8,10], n = 5 accumulates sums 15, 30, 55, 110, converts them
to binary32, computes m = (5*110 - 15*30)/(5*55 - 15*15) = 2 and
b = (30 - 2*15)/5 = 0 — every intermediate value being exactly
representable in single precision — and the values read back from the
float globals m_value and b_value are within 1e-3 of 2.0 and 0.0. -/
theorem linear_regression_example_fit :
    ∃ m b, linear_regression [1, 2, 3, 4, 5] [2, 4, 6, 8, 10] 5 = some (m, b) ∧
      |m - 2| ≤ 1 / 1000 ∧ |b - 0| ≤ 1 / 1000 := by
  refine ⟨2, 0, ?_, by norm_num, by norm_num⟩
  unfold linear_regression
  rw [show lrRunFull [1, 2, 3, 4, 5] [2, 4, 6, 8, 10] 5 =
      some (⟨15, 30, 55, 110, [0, 1, 2, 3, 4]⟩, 5) from by decide]
  rw [Option.map_some']
  suffices h : lrCoeffs ⟨15, 30, 55, 110, [0, 1, 2, 3, 4]⟩ 5 = (2, 0) by rw [h]
  have f5 : sitofp32 5 = (5 : Rat) := by
    unfold sitofp32
    rw [roundB32_intCast 5 (by norm_num) (by norm_num)]
    norm_num
  have f15 : sitofp32 15 = (15 : Rat) := by
    unfold sitofp32
    rw [roundB32_intCast 15 (by norm_num) (by norm_num)]
    norm_num
  have f30 : sitofp32 30 = (30 : Rat) := by
    unfold sitofp32
    rw [roundB32_intCast 30 (by norm_num) (by norm_num)]
    norm_num
  have f55 : sitofp32 55 = (55 : Rat) := by
    unfold sitofp32
    rw [roundB32_intCast 55 (by norm_num) (by norm_num)]
    norm_num
  have f110 : sitofp32 110 = (110 : Rat) := by
    unfold sitofp32
    rw [roundB32_intCast 110 (by norm_num) (by norm_num)]
    norm_num
  have g1 : fmul32 (5 : Rat) 110 = (550 : Rat) := by
    unfold fmul32
    rw [show (5 : Rat) * 110 = ((550 : Int) : Rat) from by norm_num]
    rw [roundB32_intCast 550 (by norm_num) (by norm_num)]
    norm_num
  have g2 : fmul32 (15 : Rat) 30 = (450 : Rat) := by
    unfold fmul32
    rw [show (15 : Rat) * 30 = ((450 : Int) : Rat) from by norm_num]
    rw [roundB32_intCast 450 (by norm_num) (by norm_num)]
    norm_num
  have g3 : fmul32 (5 : Rat) 55 = (275 : Rat) := by
    unfold fmul32
    rw [show (5 : Rat) * 55 = ((275 : Int) : Rat) from by norm_num]
    rw [roundB32_intCast 275 (by norm_num) (by norm_num)]
    norm_num
  have g4 : fmul32 (15 : Rat) 15 = (225 : Rat) := by
    unfold fmul32
    rw [show (15 : Rat) * 15 = ((225 : Int) : Rat) from by norm_num]
    rw [roundB32_intCast 225 (by norm_num) (by norm_num)]
    norm_num
  have g5 : fsub32 (550 : Rat) 450 = (100 : Rat) := by
    unfold fsub32
    rw [show (550 : Rat) - 450 = ((100 : Int) : Rat) from by norm_num]
    rw [roundB32_intCast 100 (by norm_num) (by norm_num)]
    norm_num
  have g6 : fsub32 (275 : Rat) 225 = (50 : Rat) := by
    unfold fsub32
    rw [show (275 : Rat) - 225 = ((50 : Int) : Rat) from by norm_num]
    rw [roundB32_intCast 50 (by norm_num) (by norm_num)]
    norm_num
  have g7 : fdiv32 (100 : Rat) 50 = (2 : Rat) := by
    unfold fdiv32
    rw [if_neg (by norm_num : ¬(50 : Rat) = 0)]
    rw [show (100 : Rat) / 50 = ((2 : Int) : Rat) from by norm_num]
    rw [roundB32_intCast 2 (by norm_num) (by norm_num)]
    norm_num
  have g8 : fmul32 (2 : Rat) 15 = (30 : Rat) := by
    unfold fmul32
    rw [show (2 : Rat) * 15 = ((30 : Int) : Rat) from by norm_num]
    rw [roundB32_intCast 30 (by norm_num) (by norm_num)]
    norm_num
  have g9 : fsub32 (30 : Rat) 30 = (0 : Rat) := by
    unfold fsub32
    rw [show (30 : Rat) - 30 = (0 : Rat) from by norm_num]
    exact roundB32_zero
  have g10 : fdiv32 (0 : Rat) 5 = (0 : Rat) := by
    unfold fdiv32
    rw [if_neg (by norm_num : ¬(5 : Rat) = 0)]
    rw [show (0 : Rat) / 5 = (0 : Rat) from by norm_num]
    exact roundB32_zero
  unfold lrCoeffs
  dsimp only
  rw [f5, f15, f30, f55, f110, g1, g2, g3, g4, g5, g6, g7, g8, g9, g10]

/-- C1: the summation function complex_function — post-test loop starting
index and accumulator at 0, adding the current index to the accumulator,
incrementing the index, repeating while the incremented index is
signed-less-than n — returns 0+1+2+3+4 = 10 when invoked with n = 5. -/
theorem complex_function_at_five : complex_function 5 = some 10 := by decide

/-- C4: example_function, whose single entry block returns the 32-bit
constant 42, passes module verification, and invoking the compiled
function yields 42 (the JIT boundary is modelled as faithful execution of
the verified function's IR semantics). -/
theorem example_function_returns_42 :
    verifyM exampleModule = true ∧ evalRetFunc exampleFunc = some 42 := by decide

/-- C5: for every i32 argument n ≤ 1, complex_function executes its
post-test loop body exactly once — adding the initial index 0 to the
accumulator — then exits because 1 < n is false; it terminates and
returns 0 for n = 0 and all negative n. -/
theorem complex_function_nonpositive (n : Int) (h : n ≤ 1) :
    complex_function n = some 0 ∧ cfIterations n = 1 := by
  have hrun : cfRunFull n = some (0, 1) := by
    unfold cfRunFull
    simp only [doWhile]
    rw [show wrap32 (0 + 1) = 1 from by decide]
    rw [if_neg (by omega : ¬(1 : Int) < n)]
    rw [show cfBody 0 0 = 0 from by decide]
  constructor
  · unfold complex_function
    rw [hrun]
    rfl
  · unfold cfIterations
    rw [hrun]
    rfl

/-- Witness for C5 at n = -3. -/
theorem complex_function_nonpositive_witness :
    complex_function (-3) = some 0 ∧ cfIterations (-3) = 1 :=
  complex_function_nonpositive (-3) (by norm_num)

/-- C2: in both built loops the entry block ends with an unconditional
branch into the loop body, the loop body ends with a conditional branch
targeting either itself or the exit block, and consequently for every i32
argument (including n = 0 and negative n) the loop body executes at least
once per entry into the loop. -/
theorem loop_topology_body_runs_once :
    (complexFunc.blocks.map (fun b => (b.bname, b.term)) =
      [("entry", Terminator.br ("loop")),
       ("loop", Terminator.condbr ("loop") ("after_loop")),
       ("after_loop", Terminator.retVal)])
    ∧ (lrFunc.blocks.map (fun b => (b.bname, b.term)) =
      [("entry", Terminator.br ("loop")),
       ("loop", Terminator.condbr ("loop") ("after_loop")),
       ("after_loop", Terminator.retVoid)])
    ∧ (∀ n : Int, -2147483648 ≤ n → n ≤ 2147483647 →
        (cfRunFull n).isSome = true ∧ 1 ≤ cfIterations n)
    ∧ (∀ (x y : List Int) (n : Int), -2147483648 ≤ n → n ≤ 2147483647 →
        (lrRunFull x y n).isSome = true ∧ 1 ≤ lrIterations x y n) := by
  refine ⟨by decide, by decide, ?_, ?_⟩
  · intro n h1 h2
    have hs : (doWhile cfBody (n.toNat + 1) 0 0 n).isSome = true :=
      doWhile_total cfBody (n.toNat + 1) 0 0 n (by norm_num) (by norm_num) h2 (by omega)
    refine ⟨hs, ?_⟩
    obtain ⟨r, hr⟩ := Option.isSome_iff_exists.mp hs
    cases r with
    | mk s k =>
      have hk := doWhile_pos cfBody (n.toNat + 1) 0 0 n s k hr
      unfold cfIterations cfRunFull
      rw [hr]
      exact hk
  · intro x y n h1 h2
    have hs : (doWhile (lrBody x y) (n.toNat + 1) 0 initLR n).isSome = true :=
      doWhile_total (lrBody x y) (n.toNat + 1) 0 initLR n (by norm_num) (by norm_num) h2
        (by omega)
    refine ⟨hs, ?_⟩
    obtain ⟨r, hr⟩ := Option.isSome_iff_exists.mp hs
    cases r with
    | mk s k =>
      have hk := doWhile_pos (lrBody x y) (n.toNat + 1) 0 initLR n s k hr
      unfold lrIterations lrRunFull
      rw [hr]
      exact hk

/-- Witness for C2 at n = 0 (summation) and n = -3 with empty arrays
(regression): the loop body still runs exactly once. -/
theorem loop_topology_body_runs_once_witness :
    ((cfRunFull 0).isSome = true ∧ 1 ≤ cfIterations 0)
    ∧ ((lrRunFull [] [] (-3)).isSome = true ∧ 1 ≤ lrIterations [] [] (-3)) :=
  ⟨loop_topology_body_runs_once.2.2.1 0 (by norm_num) (by norm_num),
   loop_topology_body_runs_once.2.2.2 [] [] (-3) (by norm_num) (by norm_num)⟩

/-- Index-bounds invariant for linear_regression's loop: starting the
loop at an in-range index with an in-range access trace, every index the
body dereferences stays in [0, n). -/
theorem lr_accessed_inv (x y : List Int) :
    ∀ (fuel : Nat) (i : Int) (s : LRState) (n : Int) (s2 : LRState) (k : Nat),
      0 ≤ i → i < n → n ≤ 2147483647 →
      (∀ j, j ∈ s.accessed → 0 ≤ j ∧ j < n) →
      doWhile (lrBody x y) fuel i s n = some (s2, k) →
      ∀ j, j ∈ s2.accessed → 0 ≤ j ∧ j < n := by
  intro fuel
  induction fuel with
  | zero =>
    intro i s n s2 k h0 h1 h2 hacc hrun
    simp [doWhile] at hrun
  | succ f ih =>
    intro i s n s2 k h0 h1 h2 hacc hrun
    have hbodyacc : ∀ j, j ∈ (lrBody x y i s).accessed → 0 ≤ j ∧ j < n := by
      intro j hj
      unfold lrBody at hj
      dsimp only at hj
      rw [List.mem_append] at hj
      rcases hj with hj | hj
      · exact hacc j hj
      · rw [List.mem_singleton] at hj
        subst hj
        exact ⟨h0, h1⟩
    simp only [doWhile] at hrun
    by_cases hlt : wrap32 (i + 1) < n
    · rw [if_pos hlt] at hrun
      have hw : wrap32 (i + 1) = i + 1 := wrap32_eq_self _ (by omega) (by omega)
      rw [hw] at hlt hrun
      cases hd : doWhile (lrBody x y) f (i + 1) (lrBody x y i s) n with
      | none =>
        rw [hd] at hrun
        simp at hrun
      | some r =>
        rw [hd] at hrun
        cases r with
        | mk rs rk =>
          simp at hrun
          obtain ⟨hs2, _⟩ := hrun
          intro j hj
          exact ih (i + 1) (lrBody x y i s) n rs rk (by omega) hlt h2 hbodyacc hd j
            (by rw [hs2]; exact hj)
    · rw [if_neg hlt] at hrun
      simp at hrun
      obtain ⟨hs2, _⟩ := hrun
      intro j hj
      exact hbodyacc j (by rw [hs2]; exact hj)

/-- C10: linear_regression needs n ≥ 1 for memory safety.  Under n ≥ 1
(with i32-valid n) every index the loop dereferences through the
unchecked element-address computation lies in [0, n-1], in bounds for
arrays of length n; at n = 0 the post-test loop body still executes and
dereferences x[0] and y[0], an out-of-bounds read for the length-0
arrays. -/
theorem lr_index_bounds :
    (∀ (x y : List Int) (n : Int), 1 ≤ n → n ≤ 2147483647 →
      ∀ s k, lrRunFull x y n = some (s, k) → ∀ j, j ∈ s.accessed → 0 ≤ j ∧ j < n)
    ∧ (∃ s k, lrRunFull [] [] 0 = some (s, k) ∧ s.accessed = [(0 : Int)] ∧
        ([] : List Int).length = 0) := by
  constructor
  · intro x y n h1 h2 s k hrun
    unfold lrRunFull at hrun
    exact lr_accessed_inv x y (n.toNat + 1) 0 initLR n s k (by norm_num) (by omega) h2
      (by intro j hj; simp [initLR] at hj) hrun
  · exact ⟨⟨0, 0, 0, 0, [0]⟩, 1, by decide, rfl, rfl⟩

/-- Witness for C10 at x = [7], y = [9], n = 1: the single dereferenced
index 0 is in bounds. -/
theorem lr_index_bounds_witness : 0 ≤ (0 : Int) ∧ (0 : Int) < 1 :=
  lr_index_bounds.1 [7] [9] 1 (by norm_num) (by norm_num) ⟨7, 9, 49, 63, [0]⟩ 1
    (by decide) 0 (by decide)

/-- Modelled from the spec: the textual serialization of a module.  In
the repository, str(module) and llvm.parse_assembly live in the external
llvmlite/LLVM library; the spec's round-trip contract (section 6 and
"Round-trip property") requires a stable textual form from which the same
functions and control-flow-graph shape are recovered.  One line per
terminator. -/
def termLine : Terminator → String
  | Terminator.br t => "br " ++ t
  | Terminator.condbr a b => "condbr " ++ a ++ " " ++ b
  | Terminator.retConst v => "retconst " ++ toString v
  | Terminator.retVal => "retval"
  | Terminator.retVoid => "retvoid"

/-- Modelled from the spec: textual lines of one function — a header
line, then for each block its label line followed by its terminator
line. -/
def funcLines (f : IRFunc) : List String :=
  ("func " ++ f.fname ++ " " ++ toString f.nparams) ::
    (f.blocks.map (fun b => ["block " ++ b.bname, termLine b.term])).flatten

/-- Modelled from the spec: textual lines of a module — the module
header, the global declarations, then the functions. -/
def moduleLines (m : IRModule) : List String :=
  ("module " ++ m.mname) :: (m.globals.map (fun g => "global " ++ g))
    ++ (m.funcs.map funcLines).flatten

/-- Join lines with newlines. -/
def joinLines : List String → String
  | [] => ""
  | [l] => l
  | l :: rest => l ++ "\n" ++ joinLines rest

/-- Modelled from the spec: serialize a module to its textual IR. -/
def printIRModule (m : IRModule) : String :=
  joinLines (moduleLines m)

/-- Split a character list at every occurrence of a separator. -/
def splitChar (c : Char) : List Char → List (List Char)
  | [] => [[]]
  | a :: rest =>
    match splitChar c rest with
    | [] => [[]]
    | w :: ws => if a = c then [] :: w :: ws else (a :: w) :: ws

/-- Digits of a token to a natural number; none on a non-digit or an
empty token. -/
def digitsToNat (cs : List Char) : Option Nat :=
  match cs with
  | [] => none
  | _ =>
    cs.foldl
      (fun acc c =>
        match acc with
        | none => none
        | some a => if c.isDigit then some (a * 10 + (c.toNat - 48)) else none)
      (some 0)

/-- Parse a decimal natural number token. -/
def parseNatStr (s : String) : Option Nat :=
  digitsToNat s.toList

/-- Parse a decimal integer token with optional leading minus. -/
def parseIntStr (s : String) : Option Int :=
  match s.toList with
  | [] => none
  | '-' :: rest => (digitsToNat rest).map (fun k => -((k : Nat) : Int))
  | cs => (digitsToNat cs).map (fun k => ((k : Nat) : Int))

/-- Tokens of one line. -/
def toksOf (l : List Char) : List String :=
  (splitChar ' ' l).map (fun w => String.mk w)

/-- Parse one terminator line. -/
def parseTermToks : List String → Option Terminator
  | ["br", t] => some (Terminator.br t)
  | ["condbr", a, b] => some (Terminator.condbr a b)
  | ["retconst", v] => (parseIntStr v).map Terminator.retConst
  | ["retval"] => some Terminator.retVal
  | ["retvoid"] => some Terminator.retVoid
  | _ => none

/-- Parse state: module name once seen, globals and finished functions in
reverse order, the function currently open (name, arity, reversed
blocks), and a block label awaiting its terminator line. -/
structure PSt where
  mnameSeen : Option String
  globalsRev : List String
  funcsRev : List IRFunc
  cur : Option (String × Nat × List BBlock)
  pending : Option String

/-- Close the currently open function, if any; fails when a block label
is still awaiting its terminator. -/
def finishFunc (st : PSt) : Option PSt :=
  match st.pending with
  | some _ => none
  | none =>
    match st.cur with
    | none => some st
    | some (fn, np, bsRev) =>
      some ⟨st.mnameSeen, st.globalsRev, ⟨fn, np, bsRev.reverse⟩ :: st.funcsRev, none, none⟩

/-- Parse one line of the textual form into the parse state. -/
def parseLine (st : PSt) (toks : List String) : Option PSt :=
  match toks with
  | ["module", nm] =>
    match st.mnameSeen with
    | none => some ⟨some nm, st.globalsRev, st.funcsRev, st.cur, st.pending⟩
    | some _ => none
  | ["global", g] =>
    match st.cur, st.pending with
    | none, none => some ⟨st.mnameSeen, g :: st.globalsRev, st.funcsRev, none, none⟩
    | _, _ => none
  | ["func", fn, np] =>
    match parseNatStr np with
    | none => none
    | some k =>
      match finishFunc st with
      | none => none
      | some st2 => some ⟨st2.mnameSeen, st2.globalsRev, st2.funcsRev, some (fn, k, []), none⟩
  | ["block", bn] =>
    match st.pending, st.cur with
    | none, some _ => some ⟨st.mnameSeen, st.globalsRev, st.funcsRev, st.cur, some bn⟩
    | _, _ => none
  | other =>
    match parseTermToks other with
    | none => none
    | some t =>
      match st.pending, st.cur with
      | some bn, some (fn, np, bs) =>
        some ⟨st.mnameSeen, st.globalsRev, st.funcsRev, some (fn, np, ⟨bn, t⟩ :: bs), none⟩
      | _, _ => none

/-- Modelled from the spec: re-parse a textual IR module.  Inverse
direction of printIRModule, per the spec's round-trip contract. -/
def parseIRText (s : String) : Option IRModule :=
  match
    (splitChar '\n' s.toList).foldl
      (fun acc l =>
        match acc with
        | none => none
        | some st => parseLine st (toksOf l))
      (some ⟨none, [], [], none, none⟩)
  with
  | none => none
  | some st =>
    match finishFunc st with
    | none => none
    | some st2 =>
      match st2.mnameSeen with
      | none => none
      | some nm => some ⟨nm, st2.globalsRev.reverse, st2.funcsRev.reverse⟩

example : parseIRText (printIRModule exampleModule) = some exampleModule := by decide

set_option maxRecDepth 40000 in
/-- C6: serializing each built module to its textual IR and re-parsing
the text recovers a module that verifies and has the same functions and
the same control-flow-graph shape — here literally the same module, so
block lists and branch targets agree. -/
theorem ir_text_round_trip :
    (parseIRText (printIRModule exampleModule) = some exampleModule
      ∧ verifyM exampleModule = true)
    ∧ (parseIRText (printIRModule complexModule) = some complexModule
      ∧ verifyM complexModule = true)
    ∧ (parseIRText (printIRModule lrModule) = some lrModule
      ∧ verifyM lrModule = true) := by
  refine ⟨⟨by decide, by decide⟩, ⟨by decide, by decide⟩, by decide, by decide⟩

/-- The pipeline stages the repository's scripts perform, in program
order. -/
inductive Step
  | parse
  | verify
  | runPasses
  | createEngine
  | finalize
  | invoke
  | readGlobals
  | printIR
  deriving DecidableEq

/-- Stage order of src/optimize_ir.py: parse_assembly, mod.verify,
pass_manager.run(mod), print(mod). -/
def optimizeScript : List Step :=
  [Step.parse, Step.verify, Step.runPasses, Step.printIR]

/-- Stage order of src/jit_compile.py: parse_assembly, mod.verify,
create_mcjit_compiler, finalize_object, get_function_address + call. -/
def jitScript : List Step :=
  [Step.parse, Step.verify, Step.createEngine, Step.finalize, Step.invoke]

/-- Stage order of src/linear_regression_ir.py: parse_assembly,
mod.verify, print(mod), create_mcjit_compiler, finalize_object, call,
read the globals back. -/
def lrScript : List Step :=
  [Step.parse, Step.verify, Step.printIR, Step.createEngine, Step.finalize,
   Step.invoke, Step.readGlobals]

/-- Execution of a straight-line script under Python exception semantics:
steps run in order; when verification fails (verifyOk = false) the verify
step raises, so it is the last step executed and nothing after it runs. -/
def runScript (verifyOk : Bool) : List Step → List Step
  | [] => []
  | s :: rest =>
    if s = Step.verify ∧ verifyOk = false then [s]
    else s :: runScript verifyOk rest

/-- C8: in each pipeline script, verification of the re-parsed module
comes before running the pass manager and before creating the JIT engine,
and when verification fails the executed prefix stops at verify, so a
failing module is never handed to the pass manager or the execution
engine; when verification succeeds the script runs in full, in order. -/
theorem verify_precedes_passes_and_engine :
    (runScript false optimizeScript = [Step.parse, Step.verify]
      ∧ runScript false jitScript = [Step.parse, Step.verify]
      ∧ runScript false lrScript = [Step.parse, Step.verify])
    ∧ (Step.runPasses ∉ runScript false optimizeScript
      ∧ Step.createEngine ∉ runScript false jitScript
      ∧ Step.createEngine ∉ runScript false lrScript)
    ∧ (optimizeScript.indexOf Step.verify < optimizeScript.indexOf Step.runPasses
      ∧ jitScript.indexOf Step.verify < jitScript.indexOf Step.createEngine
      ∧ lrScript.indexOf Step.verify < lrScript.indexOf Step.createEngine)
    ∧ (runScript true optimizeScript = optimizeScript
      ∧ runScript true jitScript = jitScript
      ∧ runScript true lrScript = lrScript) := by
  decide

/-- Failure of the optimization pipeline: the spec's UnknownPass error. -/
inductive OptError
  | unknownPass (name : String)
  deriving DecidableEq

/-- Look a pass name up in a registry of module transformations. -/
def lookupPass (registry : List (String × (IRModule → IRModule))) (nm : String) :
    Option (IRModule → IRModule) :=
  match registry with
  | [] => none
  | (k, f) :: rest => if k = nm then some f else lookupPass rest nm

/-- Modelled from the spec: the ordered pass pipeline.  The repository
registers llvmlite passes through fixed add_*_pass methods; the spec's
optimize contract (section 4.4) instead resolves caller-supplied pass
names against a registry, applies them in order, and fails the whole
invocation with UnknownPass on an unrecognized name.  The model is pure:
an error result carries no module, so the caller's module stays in its
pre-pipeline state with no partial application observable. -/
def applyPasses (registry : List (String × (IRModule → IRModule))) (m : IRModule) :
    List String → Except OptError IRModule
  | [] => Except.ok m
  | p :: rest =>
    match lookupPass registry p with
    | none => Except.error (OptError.unknownPass p)
    | some f => applyPasses registry (f m) rest

/-- C9: for every registry and module, a pipeline containing an
unrecognized pass name fails the whole invocation with an UnknownPass
error naming an unregistered pass; no module is produced, so the caller's
module is left in its pre-pipeline state. -/
theorem unknown_pass_fails_pipeline
    (registry : List (String × (IRModule → IRModule))) (m : IRModule)
    (passes : List String)
    (h : ∃ p, p ∈ passes ∧ lookupPass registry p = none) :
    ∃ nm, applyPasses registry m passes = Except.error (OptError.unknownPass nm) ∧
      lookupPass registry nm = none := by
  induction passes generalizing m with
  | nil =>
    obtain ⟨p, hp, _⟩ := h
    simp at hp
  | cons p rest ih =>
    obtain ⟨q, hq, hqn⟩ := h
    unfold applyPasses
    cases hl : lookupPass registry p with
    | none => exact ⟨p, rfl, hl⟩
    | some f =>
      rcases List.mem_cons.mp hq with hq | hq
      · subst hq
        rw [hl] at hqn
        exact absurd hqn (by simp)
      · exact ih (f m) ⟨q, hq, hqn⟩

/-- Witness for C9: a one-entry registry and the pipeline ["bogus"]. -/
theorem unknown_pass_fails_pipeline_witness :
    ∃ nm, applyPasses [("constant_merge", fun m => m)] exampleModule ["bogus"]
        = Except.error (OptError.unknownPass nm) ∧
      lookupPass [("constant_merge", fun m => m)] nm = none :=
  unknown_pass_fails_pipeline [("constant_merge", fun m => m)] exampleModule ["bogus"]
    ⟨"bogus", by simp, rfl⟩
